import Mathlib

/-!
Verification of the core claims about the dfdx reverse-mode
automatic-differentiation engine: the broadcast/reduce shape-relation
algebra (src/shapes/broadcasts.rs), broadcasting as a view
(src/tensor_ops/broadcast_to.rs), the unique-identifier allocator
(src/unique_id.rs), and the elementwise activation and reduction kernels
(src/tensor_ops/leaky_relu, src/tensor_ops/prelu, src/tensor_ops/impl_mean.rs).

Shapes are modelled by their runtime dimension arrays, as lists of natural
numbers, and axis sets by lists of axis indices.  Numeric tensor values are
modelled over the rationals; all concrete values appearing in the claims are
exactly representable.  Rust panics (failed assertions, out-of-bounds array
indexing) are modelled by Except or Option error results.
-/

namespace Dfdx

/-- Error conditions raised by the runtime shape compatibility check.
The assert_eq inside BroadcastStridesTo.check reports the two disagreeing
dimension sizes; indexing the source dimension array out of bounds is the
other possible panic of that loop. -/
inductive CheckErr where
  | shapeMismatch (dstDim srcDim : Nat)
  | indexOutOfBounds
  deriving DecidableEq, Repr

namespace BroadcastStridesTo

/-- Loop body of BroadcastStridesTo.check from src/shapes/broadcasts.rs
(lines 171-182): iterate i over the destination dimensions; whenever i is
not in the axis set, assert that the destination size equals the next
source size (index j), advancing j.  The index i is carried explicitly,
and j indexes the source dimension array. -/
def checkAux (ax src : List Nat) : List Nat → Nat → Nat → Except CheckErr Unit
  | [], _, _ => Except.ok ()
  | d :: rest, i, j =>
    if i ∈ ax then checkAux ax src rest (i + 1) j
    else
      match src[j]? with
      | none => Except.error CheckErr.indexOutOfBounds
      | some s =>
        if d = s then checkAux ax src rest (i + 1) (j + 1)
        else Except.error (CheckErr.shapeMismatch d s)

/-- Translation of BroadcastStridesTo.check: runs the loop over all
destination dimensions starting at i = 0, j = 0. -/
def check (ax src dst : List Nat) : Except CheckErr Unit :=
  checkAux ax src dst 0 0

/-- Loop body of BroadcastStridesTo.broadcast_strides from
src/shapes/broadcasts.rs (lines 184-195): the destination stride array
starts as Default (all zeroes); for each destination axis i not in the
axis set, the next source stride (index j) is written into position i.
Axes in the axis set keep the default stride 0.  The recursion counts the
remaining destination axes with n and carries i and j. -/
def broadcastStridesAux (ax strides : List Nat) : Nat → Nat → Nat → Option (List Nat)
  | 0, _, _ => some []
  | n + 1, i, j =>
    if i ∈ ax then (broadcastStridesAux ax strides n (i + 1) j).map (fun ds => 0 :: ds)
    else
      match strides[j]? with
      | none => none
      | some s => (broadcastStridesAux ax strides n (i + 1) (j + 1)).map (fun ds => s :: ds)

/-- Translation of BroadcastStridesTo.broadcast_strides: builds the
destination stride array of the given destination rank from the source
strides. -/
def broadcast_strides (ax strides : List Nat) (dstRank : Nat) : Option (List Nat) :=
  broadcastStridesAux ax strides dstRank 0 0

end BroadcastStridesTo

namespace ReduceStridesTo

/-- Loop body of ReduceStridesTo.reduced from src/shapes/broadcasts.rs
(lines 203-220): for each source axis (index i, the larger shape) not in
the axis set, copy its size into the next destination slot.  The
from_concrete conversion at the end of the Rust code is the identity on
the plain dimension lists used here. -/
def reducedAux (ax : List Nat) : List Nat → Nat → List Nat
  | [], _ => []
  | d :: rest, i =>
    if i ∈ ax then reducedAux ax rest (i + 1) else d :: reducedAux ax rest (i + 1)

/-- Translation of ReduceStridesTo.reduced: the reduced shape of dims
along the axis set. -/
def reduced (ax dims : List Nat) : List Nat := reducedAux ax dims 0

end ReduceStridesTo

/-- Removal of the axes in ax from a dimension list, stated the way the
spec words it: keep, in order, exactly the entries whose position is not
in ax.  Used as the specification side of the compatibility claims. -/
def removeAxes (ax dims : List Nat) : List Nat :=
  (dims.enum.filter (fun p => decide (p.1 ∉ ax))).map Prod.snd

/-- Number of indices in the half-open window from i of width n that belong
to the axis set ax. -/
def axCount (ax : List Nat) : Nat → Nat → Nat
  | 0, _ => 0
  | n + 1, i => (if i ∈ ax then 1 else 0) + axCount ax n (i + 1)

/-- Number of indices in the half-open window from i of width n that do not
belong to the axis set ax. -/
def nonAxCount (ax : List Nat) : Nat → Nat → Nat
  | 0, _ => 0
  | n + 1, i => (if i ∈ ax then 0 else 1) + nonAxCount ax n (i + 1)

/-- Structural invariant of the axis sets generated by the broadcast_to_all
macro: indices are strictly increasing and within the destination rank. -/
def StrictAxes (ax : List Nat) (rank : Nat) : Prop :=
  List.Pairwise (· < ·) ax ∧ ∀ a ∈ ax, a < rank

/-- The declared broadcast relation of src/shapes/broadcasts.rs: either the
general macro-generated case, where the axis set is strictly increasing,
lies within the destination rank, and the source rank plus the number of
broadcast axes equals the destination rank, or the special rank-0 instance
ReduceShapeTo (line 15), which relates the empty shape to itself along
Axis 0. -/
def DeclaredBroadcast (src dst ax : List Nat) : Prop :=
  (StrictAxes ax dst.length ∧ src.length + ax.length = dst.length)
  ∨ (src = [] ∧ dst = [] ∧ ax = [0])

/-- The axis sets supported for reducing a given destination shape: the
macro-generated strictly increasing in-bounds sets, or the special rank-0
instance along Axis 0. -/
def SupportedAxes (dst ax : List Nat) : Prop :=
  StrictAxes ax dst.length ∨ (dst = [] ∧ ax = [0])

/-- Tensor handle, following the fields of the Tensor struct as used by
try_broadcast_like in src/tensor_ops/broadcast_to.rs (lines 148-155):
a unique identifier, a reference to the storage buffer (modelled by a
token), the shape, the strides, the device (a token), and the tape, whose
type is a parameter exactly as in the Rust generic. -/
structure Tensor (τ : Type) where
  id : Nat
  data : Nat
  shape : List Nat
  strides : List Nat
  device : Nat
  tape : τ
  deriving DecidableEq, Repr

/-- Translation of try_broadcast_like from src/tensor_ops/broadcast_to.rs
(lines 139-157): run the runtime compatibility check (whose assertion
failure is a panic, modelled as the error result), then return a tensor
with the same id, data, device and tape, the destination shape, and the
broadcast strides. -/
def try_broadcast_like {τ : Type} (t : Tensor τ) (ax dst : List Nat) : Option (Tensor τ) :=
  match BroadcastStridesTo.check ax t.shape dst with
  | Except.error _ => none
  | Except.ok () =>
    match BroadcastStridesTo.broadcast_strides ax t.strides dst.length with
    | none => none
    | some ds =>
      some { id := t.id, data := t.data, shape := dst, strides := ds,
             device := t.device, tape := t.tape }

/-- Wraparound modulus of the usize counter in src/unique_id.rs on a 64-bit
platform: AtomicUsize.fetch_add wraps modulo 2 to the 64. -/
def usizeWrap : Nat := 2 ^ 64

/-- Translation of unique_id from src/unique_id.rs (lines 8-11): given the
current counter value, fetch_add(1, Relaxed) returns the previous value and
stores the incremented value, wrapping modulo the usize width. -/
def unique_id (counter : Nat) : Nat × Nat :=
  (counter, (counter + 1) % usizeWrap)

/-- Counter value stored after n calls to unique_id, starting from the
static initial value 0. -/
def counterAfter : Nat → Nat
  | 0 => 0
  | n + 1 => (unique_id (counterAfter n)).2

/-- Identifier returned by the call of index n (the n-th call counting from
zero): the counter value before that call increments it. -/
def idAt (n : Nat) : Nat := (unique_id (counterAfter n)).1

/-- Translation of the LeakyReLUKernelOp from
src/tensor_ops/leaky_relu/mod.rs, holding the slope used for negative
inputs. -/
structure LeakyReLUKernelOp where
  alpha : ℚ
  deriving DecidableEq

namespace LeakyReLUKernelOp

/-- Translation of UnaryDerivative.f for LeakyReLUKernelOp from
src/tensor_ops/leaky_relu/cpu_kernel.rs (lines 6-12): scale strictly
negative inputs by alpha, keep the rest. -/
def f (op : LeakyReLUKernelOp) (x : ℚ) : ℚ :=
  if x < 0 then x * op.alpha else x

/-- Translation of UnaryDerivative.df for LeakyReLUKernelOp from
src/tensor_ops/leaky_relu/cpu_kernel.rs (lines 14-20): derivative alpha on
strictly negative inputs, 1 otherwise. -/
def df (op : LeakyReLUKernelOp) (x : ℚ) : ℚ :=
  if x < 0 then op.alpha else 1

end LeakyReLUKernelOp

namespace PReLUKernelOp

/-- Translation of BinaryDerivative.f for PReLUKernelOp from
src/tensor_ops/prelu/cpu_kernel.rs (lines 6-12). -/
def f (x alpha : ℚ) : ℚ :=
  if x < 0 then x * alpha else x

/-- Translation of BinaryDerivative.dfdx for PReLUKernelOp from
src/tensor_ops/prelu/cpu_kernel.rs (lines 14-20): derivative with respect
to the first argument. -/
def dfdx (x alpha : ℚ) : ℚ :=
  if x < 0 then alpha else 1

/-- Translation of BinaryDerivative.dfdy for PReLUKernelOp from
src/tensor_ops/prelu/cpu_kernel.rs (lines 22-28): derivative with respect
to the second argument (the slope). -/
def dfdy (x _alpha : ℚ) : ℚ :=
  if x < 0 then x else 0

end PReLUKernelOp

/-- Modelled from the spec: the tape and backward driver are not under src
(only callers and tests are).  Per spec sections 4.4, 4.5 and 8, backward
seeds the scalar output gradient with 1, a sum reduction passes the output
gradient unchanged to every element, and a recorded unary elementwise
operation accumulates the pointwise derivative times the output gradient
into its input gradient.  For a unary op whose output is summed to a scalar
this yields the derivative applied elementwise, times the seed 1. -/
def unarySumBackward (df : ℚ → ℚ) (xs : List ℚ) : List ℚ :=
  xs.map (fun x => df x * 1)

/-- Modelled from the spec: backward for a scalar output of a unary
elementwise operation, with the output gradient seeded to 1 by the backward
driver (spec section 4.5, not under src). -/
def unaryScalarBackward (df : ℚ → ℚ) (x : ℚ) : ℚ :=
  df x * 1

/-- Modelled from the spec: gradient accumulated into the second argument of
a binary elementwise operation whose output is summed to a scalar; each
position receives the partial derivative with respect to the second
argument times the seeded output gradient 1 (spec sections 4.4, 4.5; the
tape, driver and try_binary_op are not under src). -/
def binarySumBackwardSnd (dfdy : ℚ → ℚ → ℚ) (xs ys : List ℚ) : List ℚ :=
  List.zipWith (fun x y => dfdy x y * 1) xs ys

/-- Number of elements of a rank-2 tensor given as rows. -/
def numElements (t : List (List ℚ)) : Nat :=
  (t.map (fun row => row.length)).sum

/-- Translation of mean from src/tensor_ops/impl_mean.rs (lines 6-16):
sums every value and divides by the number of elements.  The Device.mean
collaborator is a device backend not under src; it is modelled from the doc
comment of mean, which states exactly this. -/
def mean2d (t : List (List ℚ)) : ℚ :=
  (t.map (fun row => row.sum)).sum / (numElements t : ℚ)

/-- Translation of the backward closure recorded by mean in
src/tensor_ops/impl_mean.rs (lines 10-14): every input gradient position
receives g divided by NUM_ELEMENTS, where g is the gradient of the scalar
output; the backward driver seeding g = 1 is modelled from the spec
(section 4.5, not under src). -/
def mean2dBackward (t : List (List ℚ)) (g : ℚ) : List (List ℚ) :=
  t.map (fun row => row.map (fun _ => g / (numElements t : ℚ)))

/-! Theorems. -/

lemma counterAfter_eq (n : Nat) : counterAfter n = n % usizeWrap := by
  induction n with
  | zero => rfl
  | succ n ih =>
    show (counterAfter n + 1) % usizeWrap = (n + 1) % usizeWrap
    rw [ih]
    simp only [usizeWrap]
    omega

lemma idAt_eq (n : Nat) : idAt n = n % usizeWrap := by
  simp [idAt, unique_id, counterAfter_eq]

/-- Claim C5, counterexample: the allocator counter wraps modulo the usize
width, so the call of index 2 to the 64 returns the same identifier as the
very first call, even though it comes strictly later — the identifier 0 is
returned twice within one process. -/
theorem unique_id_repeats_after_wrap :
    idAt (2 ^ 64) = idAt 0 ∧ 0 < 2 ^ 64 := by
  constructor
  · rw [idAt_eq, idAt_eq]
    simp [usizeWrap]
  · positivity

/-- Claim C5, amended: every call whose index is below the usize wraparound
bound returns an identifier strictly greater than every identifier returned
by an earlier call; identifiers are therefore unique among the first
2 to the 64 calls.  The allocator itself is a total function of the counter
state, so it never fails. -/
theorem unique_id_strictMono_below_wrap (i j : Nat) (hij : i < j) (hj : j < 2 ^ 64) :
    idAt i < idAt j := by
  rw [idAt_eq, idAt_eq]
  have hw : usizeWrap = 2 ^ 64 := rfl
  rw [hw, Nat.mod_eq_of_lt (lt_trans hij hj), Nat.mod_eq_of_lt hj]
  exact hij

/-- Witness for the amended claim C5 at the first two calls. -/
theorem unique_id_strictMono_below_wrap_witness : idAt 0 < idAt 1 :=
  unique_id_strictMono_below_wrap 0 1 (by norm_num) (by norm_num)

/-- Claim C6: with the slope-0.5 leaky derivative op, the forward value at
the scalar -1 is -0.5 and backward yields gradient 0.5 there; applied
elementwise to the vector [-2, -1, 1, 2] and summed to a scalar, the
forward output is [-1, -0.5, 1, 2] and backward yields the gradient
[0.5, 0.5, 1, 1] at the input. -/
theorem leaky_relu_concrete_scenario :
    (LeakyReLUKernelOp.mk (1/2)).f (-1) = -(1/2)
    ∧ unaryScalarBackward (LeakyReLUKernelOp.mk (1/2)).df (-1) = 1/2
    ∧ List.map (LeakyReLUKernelOp.mk (1/2)).f [-2, -1, 1, 2] = [-1, -(1/2), 1, 2]
    ∧ unarySumBackward (LeakyReLUKernelOp.mk (1/2)).df [-2, -1, 1, 2] = [1/2, 1/2, 1, 1] := by
  refine ⟨?_, ?_, ?_, ?_⟩ <;>
    norm_num [LeakyReLUKernelOp.f, LeakyReLUKernelOp.df, unaryScalarBackward,
      unarySumBackward]

/-- Claim C7: the mean of the 2 by 3 tensor [[1,2,3],[4,5,6]] is the scalar
3.5, and backward from that scalar yields the gradient 1/6 uniformly at
every input position. -/
theorem mean_concrete_scenario :
    mean2d [[1, 2, 3], [4, 5, 6]] = 7/2
    ∧ mean2dBackward [[1, 2, 3], [4, 5, 6]] 1
        = [[1/6, 1/6, 1/6], [1/6, 1/6, 1/6]] := by
  constructor <;>
    norm_num [mean2d, mean2dBackward, numElements, List.replicate_succ]

/-- Claim C9: at input exactly 0, both the leaky-relu and the prelu forward
functions take the identity branch and return 0, and the derivative with
respect to the input is 1, not the slope: the alpha-scaled branch applies
only to strictly negative inputs. -/
theorem relu_zero_boundary (a : ℚ) :
    (LeakyReLUKernelOp.mk a).f 0 = 0 ∧ (LeakyReLUKernelOp.mk a).df 0 = 1
    ∧ PReLUKernelOp.f 0 a = 0 ∧ PReLUKernelOp.dfdx 0 a = 1 := by
  simp [LeakyReLUKernelOp.f, LeakyReLUKernelOp.df, PReLUKernelOp.f, PReLUKernelOp.dfdx]

/-- Witness for claim C9 at slope one half. -/
theorem relu_zero_boundary_witness :
    (LeakyReLUKernelOp.mk (1/2)).f 0 = 0 ∧ (LeakyReLUKernelOp.mk (1/2)).df 0 = 1
    ∧ PReLUKernelOp.f 0 (1/2) = 0 ∧ PReLUKernelOp.dfdx 0 (1/2) = 1 :=
  relu_zero_boundary (1/2)

/-- Claim C10: the prelu derivative with respect to the slope is the input
where the input is strictly negative and 0 elsewhere; consequently, after
summing the output to a scalar, backward accumulates into the gradient of
the slope the corresponding negative input values and 0 elsewhere, as in the
concrete test with inputs [-2, -1, 1, 2] and slopes [0.25, 0.5, 0, 0]. -/
theorem prelu_alpha_gradient :
    (∀ x a : ℚ, (x < 0 → PReLUKernelOp.dfdy x a = x) ∧ (0 ≤ x → PReLUKernelOp.dfdy x a = 0))
    ∧ binarySumBackwardSnd PReLUKernelOp.dfdy [-2, -1, 1, 2] [1/4, 1/2, 0, 0]
        = [-2, -1, 0, 0] := by
  constructor
  · intro x a
    constructor
    · intro hx
      simp [PReLUKernelOp.dfdy, hx]
    · intro hx
      simp [PReLUKernelOp.dfdy, not_lt.mpr hx]
  · norm_num [binarySumBackwardSnd, PReLUKernelOp.dfdy]

lemma removeAxes_eq_reducedAux (ax : List Nat) :
    ∀ (dims : List Nat) (i : Nat),
      ((List.enumFrom i dims).filter (fun p => !decide (p.1 ∈ ax))).map Prod.snd
        = ReduceStridesTo.reducedAux ax dims i := by
  intro dims
  induction dims with
  | nil => intro i; rfl
  | cons d rest ih =>
    intro i
    by_cases hi : i ∈ ax
    · simp [List.enumFrom, List.filter_cons, hi, ih (i + 1), ReduceStridesTo.reducedAux]
    · simp [List.enumFrom, List.filter_cons, hi, ih (i + 1), ReduceStridesTo.reducedAux]

lemma removeAxes_eq_reduced (ax dims : List Nat) :
    removeAxes ax dims = ReduceStridesTo.reducedAux ax dims 0 := by
  rw [removeAxes, List.enum_eq_enumFrom]
  rw [show (fun (p : Nat × Nat) => decide (p.1 ∉ ax)) = (fun p => !decide (p.1 ∈ ax))
    from funext (fun p => decide_not)]
  exact removeAxes_eq_reducedAux ax dims 0

lemma axCount_nil : ∀ (n i : Nat), axCount [] n i = 0 := by
  intro n
  induction n with
  | zero => intro i; rfl
  | succ n ih => intro i; simp [axCount, ih]

lemma axCount_cons (a : Nat) (ax : List Nat) (ha : a ∉ ax) :
    ∀ (n i : Nat),
      axCount (a :: ax) n i = (if i ≤ a ∧ a < i + n then 1 else 0) + axCount ax n i := by
  intro n
  induction n with
  | zero =>
    intro i
    rw [if_neg (by omega)]
    rfl
  | succ n ih =>
    intro i
    show (if i ∈ a :: ax then 1 else 0) + axCount (a :: ax) n (i + 1)
      = (if i ≤ a ∧ a < i + (n + 1) then 1 else 0)
        + ((if i ∈ ax then 1 else 0) + axCount ax n (i + 1))
    rw [ih (i + 1)]
    by_cases hia : i = a
    · rw [if_pos (List.mem_cons.mpr (Or.inl hia))]
      rw [if_neg (show i ∉ ax from fun h => ha (hia ▸ h))]
      rw [if_neg (show ¬(i + 1 ≤ a ∧ a < i + 1 + n) by omega)]
      rw [if_pos (show i ≤ a ∧ a < i + (n + 1) by omega)]
    · rw [if_congr (show (i ∈ a :: ax) ↔ i ∈ ax by simp [List.mem_cons, hia]) rfl rfl]
      rw [if_congr (show (i + 1 ≤ a ∧ a < i + 1 + n) ↔ (i ≤ a ∧ a < i + (n + 1)) by omega)
        rfl rfl]
      omega

lemma axCount_full (ax : List Nat) (n : Nat) (hnd : ax.Nodup) (hb : ∀ a ∈ ax, a < n) :
    axCount ax n 0 = ax.length := by
  induction ax with
  | nil => exact axCount_nil n 0
  | cons a ax ih =>
    obtain ⟨ha, hnd2⟩ := List.nodup_cons.mp hnd
    rw [axCount_cons a ax ha n 0]
    rw [if_pos ⟨Nat.zero_le a, by simpa using hb a (List.mem_cons_self a ax)⟩]
    rw [ih hnd2 (fun x hx => hb x (List.mem_cons_of_mem a hx))]
    simp [Nat.add_comm]

lemma reducedAux_length (ax : List Nat) :
    ∀ (dims : List Nat) (i : Nat),
      (ReduceStridesTo.reducedAux ax dims i).length + axCount ax dims.length i
        = dims.length := by
  intro dims
  induction dims with
  | nil => intro i; rfl
  | cons d rest ih =>
    intro i
    have h2 := ih (i + 1)
    by_cases hi : i ∈ ax <;>
      simp [ReduceStridesTo.reducedAux, axCount, hi] <;> omega

lemma nonAxCount_add_axCount (ax : List Nat) :
    ∀ (n i : Nat), nonAxCount ax n i + axCount ax n i = n := by
  intro n
  induction n with
  | zero => intro i; rfl
  | succ n ih =>
    intro i
    have h2 := ih (i + 1)
    by_cases hi : i ∈ ax <;> simp [nonAxCount, axCount, hi] <;> omega

lemma strictAxes_nodup {ax : List Nat} {rank : Nat} (h : StrictAxes ax rank) :
    ax.Nodup :=
  h.1.imp (fun hlt => Nat.ne_of_lt hlt)

lemma checkAux_cons_mem {ax src : List Nat} {d : Nat} {rest : List Nat} {i j : Nat}
    (hi : i ∈ ax) :
    BroadcastStridesTo.checkAux ax src (d :: rest) i j
      = BroadcastStridesTo.checkAux ax src rest (i + 1) j := by
  simp [BroadcastStridesTo.checkAux, hi]

lemma checkAux_cons_oob {ax src : List Nat} {d : Nat} {rest : List Nat} {i j : Nat}
    (hi : i ∉ ax) (hj : src[j]? = none) :
    BroadcastStridesTo.checkAux ax src (d :: rest) i j
      = Except.error CheckErr.indexOutOfBounds := by
  simp [BroadcastStridesTo.checkAux, hi, hj]

lemma checkAux_cons_eq {ax src : List Nat} {d s : Nat} {rest : List Nat} {i j : Nat}
    (hi : i ∉ ax) (hj : src[j]? = some s) (hds : d = s) :
    BroadcastStridesTo.checkAux ax src (d :: rest) i j
      = BroadcastStridesTo.checkAux ax src rest (i + 1) (j + 1) := by
  subst hds
  simp [BroadcastStridesTo.checkAux, hi, hj]

lemma checkAux_cons_ne {ax src : List Nat} {d s : Nat} {rest : List Nat} {i j : Nat}
    (hi : i ∉ ax) (hj : src[j]? = some s) (hds : d ≠ s) :
    BroadcastStridesTo.checkAux ax src (d :: rest) i j
      = Except.error (CheckErr.shapeMismatch d s) := by
  simp [BroadcastStridesTo.checkAux, hi, hj, hds]

lemma reducedAux_cons_mem {ax : List Nat} {d : Nat} {rest : List Nat} {i : Nat}
    (hi : i ∈ ax) :
    ReduceStridesTo.reducedAux ax (d :: rest) i = ReduceStridesTo.reducedAux ax rest (i + 1) := by
  simp [ReduceStridesTo.reducedAux, hi]

lemma reducedAux_cons_notMem {ax : List Nat} {d : Nat} {rest : List Nat} {i : Nat}
    (hi : i ∉ ax) :
    ReduceStridesTo.reducedAux ax (d :: rest) i
      = d :: ReduceStridesTo.reducedAux ax rest (i + 1) := by
  simp [ReduceStridesTo.reducedAux, hi]

lemma checkAux_ok_iff (ax src : List Nat) :
    ∀ (dst : List Nat) (i j : Nat),
      BroadcastStridesTo.checkAux ax src dst i j = Except.ok ()
        ↔ ∃ rest, src.drop j = ReduceStridesTo.reducedAux ax dst i ++ rest := by
  intro dst
  induction dst with
  | nil =>
    intro i j
    simp [BroadcastStridesTo.checkAux, ReduceStridesTo.reducedAux]
  | cons d rest ih =>
    intro i j
    by_cases hi : i ∈ ax
    · rw [checkAux_cons_mem hi, reducedAux_cons_mem hi]
      exact ih (i + 1) j
    · rw [reducedAux_cons_notMem hi]
      cases hj : src[j]? with
      | none =>
        have hlen : src.length ≤ j := List.getElem?_eq_none_iff.mp hj
        rw [checkAux_cons_oob hi hj]
        constructor
        · intro h; exact Except.noConfusion h
        · rintro ⟨r, hr⟩
          rw [List.drop_eq_nil_of_le hlen] at hr
          exact List.noConfusion hr
      | some s =>
        obtain ⟨hjlt, hsj⟩ := List.getElem?_eq_some.mp hj
        have hdrop : src.drop j = s :: src.drop (j + 1) := by
          rw [List.drop_eq_getElem_cons hjlt, hsj]
        by_cases hds : d = s
        · subst hds
          rw [checkAux_cons_eq hi hj rfl, ih (i + 1) (j + 1)]
          constructor
          · rintro ⟨r, hr⟩
            exact ⟨r, by rw [hdrop, hr, List.cons_append]⟩
          · rintro ⟨r, hr⟩
            rw [hdrop, List.cons_append] at hr
            injection hr with h1 h2
            exact ⟨r, h2⟩
        · rw [checkAux_cons_ne hi hj hds]
          constructor
          · intro h; exact Except.noConfusion h
          · rintro ⟨r, hr⟩
            rw [hdrop, List.cons_append] at hr
            injection hr with h1 h2
            exact absurd h1.symm hds

lemma checkAux_ne_oob (ax src : List Nat) :
    ∀ (dst : List Nat) (i j : Nat),
      (ReduceStridesTo.reducedAux ax dst i).length + j ≤ src.length →
      BroadcastStridesTo.checkAux ax src dst i j
        ≠ Except.error CheckErr.indexOutOfBounds := by
  intro dst
  induction dst with
  | nil =>
    intro i j h
    simp [BroadcastStridesTo.checkAux]
  | cons d rest ih =>
    intro i j h
    by_cases hi : i ∈ ax
    · rw [checkAux_cons_mem hi]
      exact ih (i + 1) j (by rw [reducedAux_cons_mem hi] at h; exact h)
    · have hlen : (ReduceStridesTo.reducedAux ax rest (i + 1)).length + 1 + j ≤ src.length := by
        rw [reducedAux_cons_notMem hi] at h
        simpa [Nat.add_comm] using h
      have hjlt : j < src.length := by omega
      have hj : src[j]? = some src[j] := List.getElem?_eq_getElem hjlt
      by_cases hds : d = src[j]
      · rw [checkAux_cons_eq hi hj hds]
        exact ih (i + 1) (j + 1) (by omega)
      · rw [checkAux_cons_ne hi hj hds]
        intro h2
        exact CheckErr.noConfusion (Except.error.inj h2)

lemma reducedAux_eq_nil (ax : List Nat) :
    ∀ (dims : List Nat) (i : Nat),
      (∀ k, i ≤ k → k < i + dims.length → k ∈ ax) →
      ReduceStridesTo.reducedAux ax dims i = [] := by
  intro dims
  induction dims with
  | nil => intro i _; rfl
  | cons d rest ih =>
    intro i h
    have hi : i ∈ ax := h i (Nat.le_refl i) (by simp)
    simp only [ReduceStridesTo.reducedAux, if_pos hi]
    exact ih (i + 1) (fun k h1 h2 => h k (by omega) (by simp at h2 ⊢; omega))

lemma broadcastStridesAux_spec (ax strides : List Nat) :
    ∀ (n i j : Nat),
      nonAxCount ax n i + j = strides.length →
      ∃ ds, BroadcastStridesTo.broadcastStridesAux ax strides n i j = some ds
        ∧ ds.length = n
        ∧ ReduceStridesTo.reducedAux ax ds i = strides.drop j
        ∧ ∀ m, m < n → (i + m) ∈ ax → ds[m]? = some 0 := by
  intro n
  induction n with
  | zero =>
    intro i j h
    have hj : j = strides.length := by simpa [nonAxCount] using h
    refine ⟨[], rfl, rfl, ?_, fun m hm => absurd hm (Nat.not_lt_zero m)⟩
    rw [hj, List.drop_length]
    rfl
  | succ n ih =>
    intro i j h
    by_cases hi : i ∈ ax
    · have h2 : nonAxCount ax n (i + 1) + j = strides.length := by
        simpa [nonAxCount, hi] using h
      obtain ⟨ds, hds, hlen, hred, hz⟩ := ih (i + 1) j h2
      refine ⟨0 :: ds, ?_, ?_, ?_, ?_⟩
      · simp [BroadcastStridesTo.broadcastStridesAux, hi, hds]
      · simp [hlen]
      · simpa [ReduceStridesTo.reducedAux, hi] using hred
      · intro m hm hmem
        cases m with
        | zero => exact List.getElem?_cons_zero
        | succ m =>
          rw [List.getElem?_cons_succ]
          exact hz m (by omega) (by
            have he : i + 1 + m = i + (m + 1) := by omega
            rw [he]; exact hmem)
    · have h2 : 1 + nonAxCount ax n (i + 1) + j = strides.length := by
        simpa [nonAxCount, hi, Nat.add_assoc] using h
      have hjlt : j < strides.length := by omega
      obtain ⟨ds, hds, hlen, hred, hz⟩ := ih (i + 1) (j + 1) (by omega)
      refine ⟨strides[j] :: ds, ?_, ?_, ?_, ?_⟩
      · simp [BroadcastStridesTo.broadcastStridesAux, hi,
          List.getElem?_eq_getElem hjlt, hds]
      · simp [hlen]
      · simp only [ReduceStridesTo.reducedAux, if_neg hi]
        rw [hred, ← List.drop_eq_getElem_cons hjlt]
      · intro m hm hmem
        cases m with
        | zero => exact absurd (by simpa using hmem) hi
        | succ m =>
          rw [List.getElem?_cons_succ]
          exact hz m (by omega) (by
            have he : i + 1 + m = i + (m + 1) := by omega
            rw [he]; exact hmem)

/-- Witness for claim C10 on a negative and a nonnegative input. -/
theorem prelu_alpha_gradient_witness :
    PReLUKernelOp.dfdy (-2) (1/4) = -2 ∧ PReLUKernelOp.dfdy 1 0 = 0 :=
  ⟨(prelu_alpha_gradient.1 (-2) (1/4)).1 (by norm_num),
   (prelu_alpha_gradient.1 1 0).2 (by norm_num)⟩

/-- Claim C1: for every source shape, destination shape and axis set in the
declared broadcast relation, the runtime compatibility check succeeds
exactly when removing the axes of the axis set from the destination yields
the source dimension sizes, pairwise in order; when the sizes disagree the
check fails with a reported shape mismatch carrying the two disagreeing
sizes, never silently succeeding. -/
theorem broadcast_check_correct (src dst ax : List Nat) (h : DeclaredBroadcast src dst ax) :
    (BroadcastStridesTo.check ax src dst = Except.ok () ↔ removeAxes ax dst = src)
    ∧ (removeAxes ax dst ≠ src →
        ∃ d s, BroadcastStridesTo.check ax src dst
          = Except.error (CheckErr.shapeMismatch d s)) := by
  rcases h with ⟨⟨hsort, hb⟩, hlen⟩ | ⟨rfl, rfl, rfl⟩
  · have hnd : ax.Nodup := strictAxes_nodup ⟨hsort, hb⟩
    have hredlen : (ReduceStridesTo.reducedAux ax dst 0).length = src.length := by
      have h1 := reducedAux_length ax dst 0
      have h2 := axCount_full ax dst.length hnd hb
      omega
    have hiff : BroadcastStridesTo.check ax src dst = Except.ok ()
        ↔ ReduceStridesTo.reducedAux ax dst 0 = src := by
      rw [BroadcastStridesTo.check, checkAux_ok_iff]
      constructor
      · rintro ⟨r, hr⟩
        rw [List.drop_zero] at hr
        have hl : src.length = (ReduceStridesTo.reducedAux ax dst 0).length + r.length := by
          rw [hr, List.length_append]
        have hr0 : r = [] := List.eq_nil_of_length_eq_zero (by omega)
        rw [hr0, List.append_nil] at hr
        exact hr.symm
      · intro he
        exact ⟨[], by rw [List.drop_zero, he, List.append_nil]⟩
    constructor
    · rw [hiff, removeAxes_eq_reduced]
    · intro hne
      have hne2 : ReduceStridesTo.reducedAux ax dst 0 ≠ src := by
        rw [removeAxes_eq_reduced] at hne
        exact hne
      have hnok : BroadcastStridesTo.check ax src dst ≠ Except.ok () :=
        fun heq => hne2 (hiff.mp heq)
      have hnoob : BroadcastStridesTo.check ax src dst
          ≠ Except.error CheckErr.indexOutOfBounds :=
        checkAux_ne_oob ax src dst 0 0 (by omega)
      cases hres : BroadcastStridesTo.check ax src dst with
      | ok u =>
        cases u
        exact absurd hres hnok
      | error e =>
        cases e with
        | shapeMismatch d s => exact ⟨d, s, rfl⟩
        | indexOutOfBounds => exact absurd hres hnoob
  · exact ⟨⟨fun _ => rfl, fun _ => rfl⟩, fun hne => absurd rfl hne⟩

/-- Witness for claim C1: the shape with one dimension of size 3
broadcasts to the two-dimensional shape 5 by 3 along axis 0. -/
theorem broadcast_check_correct_witness :
    (BroadcastStridesTo.check [0] [3] [5, 3] = Except.ok () ↔ removeAxes [0] [5, 3] = [3])
    ∧ (removeAxes [0] [5, 3] ≠ [3] →
        ∃ d s, BroadcastStridesTo.check [0] [3] [5, 3]
          = Except.error (CheckErr.shapeMismatch d s)) :=
  broadcast_check_correct [3] [5, 3] [0]
    (by unfold DeclaredBroadcast StrictAxes; decide)

/-- Claim C2: for every source shape broadcastable to a destination shape
along an axis set, broadcast_strides succeeds and returns a destination
stride vector whose axes outside the axis set carry the source strides in
order, and whose axes inside the axis set carry stride 0. -/
theorem broadcast_strides_correct (src dst ax strides : List Nat)
    (h : DeclaredBroadcast src dst ax) (hst : strides.length = src.length) :
    ∃ ds, BroadcastStridesTo.broadcast_strides ax strides dst.length = some ds
      ∧ ds.length = dst.length
      ∧ removeAxes ax ds = strides
      ∧ ∀ k ∈ ax, k < dst.length → ds[k]? = some 0 := by
  rcases h with ⟨⟨hsort, hb⟩, hlen⟩ | ⟨rfl, rfl, rfl⟩
  · have hnd : ax.Nodup := strictAxes_nodup ⟨hsort, hb⟩
    have hcnt : nonAxCount ax dst.length 0 + 0 = strides.length := by
      have h1 := nonAxCount_add_axCount ax dst.length 0
      have h2 := axCount_full ax dst.length hnd hb
      omega
    obtain ⟨ds, hds, hdl, hred, hz⟩ :=
      broadcastStridesAux_spec ax strides dst.length 0 0 hcnt
    refine ⟨ds, hds, hdl, ?_, ?_⟩
    · rw [removeAxes_eq_reduced, hred, List.drop_zero]
    · intro k hk hklen
      exact hz k hklen (by simpa using hk)
  · have hs : strides = [] := List.eq_nil_of_length_eq_zero (by simpa using hst)
    subst hs
    exact ⟨[], rfl, rfl, rfl, fun k hk hklen => absurd hklen (Nat.not_lt_zero k)⟩

/-- Witness for claim C2, mirroring the test test_broadcast_strides of
src/shapes/broadcasts.rs: source strides [1] broadcast to rank 3 along
axes 0 and 2 give the destination strides [0, 1, 0]. -/
theorem broadcast_strides_correct_witness :
    ∃ ds, BroadcastStridesTo.broadcast_strides [0, 2] [1] 3 = some ds
      ∧ ds.length = 3
      ∧ removeAxes [0, 2] ds = [1]
      ∧ ∀ k ∈ [0, 2], k < 3 → ds[k]? = some 0 :=
  broadcast_strides_correct [7] [5, 7, 9] [0, 2] [1]
    (by unfold DeclaredBroadcast StrictAxes; decide) (by decide)

/-- Claim C3: reduce is a right inverse of the broadcast relation: for every
destination shape and supported axis set, the reduced shape consists of
exactly the destination dimensions outside the axis set, in order, lies in
the declared broadcast relation with the destination, and passes the
runtime compatibility check back to the destination along the same axis
set, so reducing then broadcasting round-trips without error. -/
theorem reduce_then_broadcast_roundtrip (dst ax : List Nat) (h : SupportedAxes dst ax) :
    ReduceStridesTo.reduced ax dst = removeAxes ax dst
    ∧ DeclaredBroadcast (ReduceStridesTo.reduced ax dst) dst ax
    ∧ BroadcastStridesTo.check ax (ReduceStridesTo.reduced ax dst) dst = Except.ok () := by
  rcases h with ⟨hsort, hb⟩ | ⟨rfl, rfl⟩
  · have hnd : ax.Nodup := strictAxes_nodup ⟨hsort, hb⟩
    refine ⟨(removeAxes_eq_reduced ax dst).symm, ?_, ?_⟩
    · left
      refine ⟨⟨hsort, hb⟩, ?_⟩
      show (ReduceStridesTo.reducedAux ax dst 0).length + ax.length = dst.length
      have h1 := reducedAux_length ax dst 0
      have h2 := axCount_full ax dst.length hnd hb
      omega
    · rw [BroadcastStridesTo.check, checkAux_ok_iff]
      exact ⟨[], by rw [List.drop_zero, List.append_nil]; rfl⟩
  · exact ⟨rfl, Or.inr ⟨rfl, rfl, rfl⟩, rfl⟩

/-- Witness for claim C3 on the destination shape 5 by 3 reduced along
axis 0. -/
theorem reduce_then_broadcast_roundtrip_witness :
    ReduceStridesTo.reduced [0] [5, 3] = removeAxes [0] [5, 3]
    ∧ DeclaredBroadcast (ReduceStridesTo.reduced [0] [5, 3]) [5, 3] [0]
    ∧ BroadcastStridesTo.check [0] (ReduceStridesTo.reduced [0] [5, 3]) [5, 3]
        = Except.ok () :=
  reduce_then_broadcast_roundtrip [5, 3] [0]
    (by unfold SupportedAxes StrictAxes; decide)

/-- Claim C8: a rank-0 shape broadcasts to every supported destination
shape (rank at most 6) along the all-axes axis set: the runtime check
succeeds unconditionally, every destination stride is 0, and every
supported shape reduces to rank 0 along the same axis set. -/
theorem scalar_broadcast_degenerate (dst : List Nat) (hrank : dst.length ≤ 6) :
    BroadcastStridesTo.check (List.range dst.length) [] dst = Except.ok ()
    ∧ BroadcastStridesTo.broadcast_strides (List.range dst.length) [] dst.length
        = some (List.replicate dst.length 0)
    ∧ ReduceStridesTo.reduced (List.range dst.length) dst = [] := by
  have hredNil : ReduceStridesTo.reducedAux (List.range dst.length) dst 0 = [] :=
    reducedAux_eq_nil (List.range dst.length) dst 0
      (fun k h1 h2 => List.mem_range.mpr (by simpa using h2))
  refine ⟨?_, ?_, hredNil⟩
  · rw [BroadcastStridesTo.check, checkAux_ok_iff]
    refine ⟨[], ?_⟩
    rw [hredNil]
    rfl
  · have hcnt : nonAxCount (List.range dst.length) dst.length 0 + 0
        = ([] : List Nat).length := by
      have h1 := nonAxCount_add_axCount (List.range dst.length) dst.length 0
      have h2 := axCount_full (List.range dst.length) dst.length
        (List.nodup_range dst.length) (fun a ha => List.mem_range.mp ha)
      have h3 : (List.range dst.length).length = dst.length := List.length_range dst.length
      simp only [List.length_nil]
      omega
    obtain ⟨ds, hds, hdl, hred, hz⟩ :=
      broadcastStridesAux_spec (List.range dst.length) [] dst.length 0 0 hcnt
    rw [BroadcastStridesTo.broadcast_strides, hds]
    congr 1
    rw [List.eq_replicate_iff]
    refine ⟨hdl, fun b hbmem => ?_⟩
    obtain ⟨m, hm, hbm⟩ := List.mem_iff_getElem.mp hbmem
    have hmn : m < dst.length := hdl ▸ hm
    have hzm := hz m hmn (by simpa using List.mem_range.mpr hmn)
    rw [List.getElem?_eq_getElem hm] at hzm
    rw [← hbm]
    exact Option.some.inj hzm

/-- Witness for claim C8 at the rank-2 destination shape 2 by 3. -/
theorem scalar_broadcast_degenerate_witness :
    BroadcastStridesTo.check (List.range 2) [] [2, 3] = Except.ok ()
    ∧ BroadcastStridesTo.broadcast_strides (List.range 2) [] 2
        = some (List.replicate 2 0)
    ∧ ReduceStridesTo.reduced (List.range 2) [2, 3] = [] :=
  scalar_broadcast_degenerate [2, 3] (by norm_num)

/-- Claim C4: broadcasting is a view, not a copy: whenever
try_broadcast_like succeeds, the returned tensor keeps the identifier,
storage buffer reference, device and tape of the input unchanged; only the
shape and strides change, the shape becoming the destination shape and the
strides the broadcast strides. -/
theorem broadcast_is_view {τ : Type} (t : Tensor τ) (ax dst : List Nat) (out : Tensor τ)
    (h : try_broadcast_like t ax dst = some out) :
    out.id = t.id ∧ out.data = t.data ∧ out.device = t.device ∧ out.tape = t.tape
    ∧ out.shape = dst
    ∧ BroadcastStridesTo.broadcast_strides ax t.strides dst.length = some out.strides := by
  unfold try_broadcast_like at h
  cases hc : BroadcastStridesTo.check ax t.shape dst with
  | error e =>
    rw [hc] at h
    exact Option.noConfusion h
  | ok u =>
    cases u
    rw [hc] at h
    cases hbs : BroadcastStridesTo.broadcast_strides ax t.strides dst.length with
    | none =>
      rw [hbs] at h
      exact Option.noConfusion h
    | some ds =>
      rw [hbs] at h
      have hout := Option.some.inj h
      rw [← hout]
      exact ⟨rfl, rfl, rfl, rfl, rfl, rfl⟩

/-- Witness for claim C4: a concrete rank-1 tensor with a tape token,
broadcast to rank 2 along axis 0, keeps id, data, device and tape. -/
theorem broadcast_is_view_witness :
    (Tensor.mk 1 2 [5, 3] [0, 1] 4 (5 : Nat)).id = (Tensor.mk 1 2 [3] [1] 4 (5 : Nat)).id
    ∧ (Tensor.mk 1 2 [5, 3] [0, 1] 4 (5 : Nat)).data
        = (Tensor.mk 1 2 [3] [1] 4 (5 : Nat)).data
    ∧ (Tensor.mk 1 2 [5, 3] [0, 1] 4 (5 : Nat)).device
        = (Tensor.mk 1 2 [3] [1] 4 (5 : Nat)).device
    ∧ (Tensor.mk 1 2 [5, 3] [0, 1] 4 (5 : Nat)).tape
        = (Tensor.mk 1 2 [3] [1] 4 (5 : Nat)).tape
    ∧ (Tensor.mk 1 2 [5, 3] [0, 1] 4 (5 : Nat)).shape = [5, 3]
    ∧ BroadcastStridesTo.broadcast_strides [0] (Tensor.mk 1 2 [3] [1] 4 (5 : Nat)).strides
        ([5, 3] : List Nat).length
        = some (Tensor.mk 1 2 [5, 3] [0, 1] 4 (5 : Nat)).strides :=
  broadcast_is_view (Tensor.mk 1 2 [3] [1] 4 (5 : Nat)) [0] [5, 3]
    (Tensor.mk 1 2 [5, 3] [0, 1] 4 (5 : Nat)) (by decide)

end Dfdx
